import Mathlib

/-!
Shallow embedding of the `langchain-rust` prompt-template utility
(`src/prompt/prompt.rs`).

Rust strings are modelled as `List Char`; the input map
`HashMap<&str, &str>` is modelled as a list of key/value pairs in the
(unspecified) iteration order of the map, so theorems quantify over all
iteration orders.  Fallible code returns `Except`.
-/

set_option autoImplicit false

/-- Rust `String` / `&str`, modelled as a list of characters. -/
abbrev Str := List Char

/-- Rust `PromptArgs<'a> = HashMap<&'a str, &'a str>`: the entries of the
map, listed in the map's iteration order. -/
abbrev PromptArgs := List (Str × Str)

/-- `enum TemplateFormat { FString, Jinja2 }`. -/
inductive TemplateFormat where
  | FString
  | Jinja2
deriving DecidableEq

/-- `struct PromptTemplate { template, variables, format }`.  The Rust field
`format` is called `formatKind` here because the trait method `format`
below must carry that name. -/
structure PromptTemplate where
  template : Str
  «variables» : List Str
  formatKind : TemplateFormat

/-- `PromptTemplate::new`: no validation, always succeeds.  (The Rust
function wraps the value in an `Arc`; shared ownership is immaterial in a
pure embedding.) -/
def PromptTemplate.new (template : Str) («variables» : List Str)
    (formatKind : TemplateFormat) : PromptTemplate :=
  { template := template, «variables» := «variables», formatKind := formatKind }

/-- `HashMap::contains_key`, on the entry list. -/
def containsKey (args : PromptArgs) (key : Str) : Bool :=
  args.any (fun kv => kv.1 == key)

/-- Worker for Rust `str::replace` with a non-empty pattern: replace the
leftmost, non-overlapping occurrences of `pat` by `rep`, scanning left to
right; replaced text is never rescanned.  The fuel argument only bounds
the recursion depth (any fuel above the length of the scanned string gives
the same result, see `replaceFuel_congr`). -/
def replaceFuel : Nat → Str → Str → Str → Str
  | 0, _, _, s => s
  | _ + 1, _, _, [] => []
  | fuel + 1, pat, rep, c :: rest =>
    if pat.isPrefixOf (c :: rest)
    then rep ++ replaceFuel fuel pat rep ((c :: rest).drop pat.length)
    else c :: replaceFuel fuel pat rep rest

/-- Rust `str::replace(pat, rep)` on `s`.  An empty pattern matches at
every character boundary, so `rep` is inserted before and after every
character; the formatter below only ever uses non-empty patterns. -/
def replace (pat rep s : Str) : Str :=
  if pat = [] then rep ++ s.foldr (fun c acc => c :: (rep ++ acc)) []
  else replaceFuel (s.length + 1) pat rep s

/-- The placeholder token built in `format`'s substitution loop:
`format!("\x7b{}\x7d", key)` for `FString`,
`format!("\x7b\x7b{}\x7d\x7d", key)` for `Jinja2`. -/
def placeholder (fk : TemplateFormat) (key : Str) : Str :=
  match fk with
  | .FString => "\x7b".data ++ key ++ "\x7d".data
  | .Jinja2 => "\x7b\x7b".data ++ key ++ "\x7d\x7d".data

/-- The error string `format!("Variable {} is missing from input variables", key)`. -/
def missingVarError (key : Str) : Str :=
  "Variable ".data ++ key ++ " is missing from input variables".data

/-- `PromptTemplate::format` (the `Prompt` trait implementation): return an
error at the first declared variable missing from the input map, else fold
`str::replace` of each entry's placeholder token over the template, in the
map's iteration order. -/
def PromptTemplate.format (self : PromptTemplate)
    (input_variables : PromptArgs) : Except Str Str :=
  match self.«variables».find? (fun key => ! containsKey input_variables key) with
  | some key => Except.error (missingVarError key)
  | none =>
    Except.ok (input_variables.foldl
      (fun prompt kv => replace (placeholder self.formatKind kv.1) kv.2 prompt)
      self.template)

/-- `format` takes `&self` and never writes a field: embedded as explicit
state passing, the receiver after the call is the receiver before it. -/
def formatCall (self : PromptTemplate) (input_variables : PromptArgs) :
    Except Str Str × PromptTemplate :=
  (self.format input_variables, self)

/-- `HashMap::insert`: overwrite the value at an existing key, else append
a fresh entry. -/
def mapInsert (args : PromptArgs) (key value : Str) : PromptArgs :=
  if containsKey args key
  then args.map (fun kv => if kv.1 == key then (key, value) else kv)
  else args ++ [(key, value)]

/-- `HashMap::get`, on the entry list. -/
def mapGet (args : PromptArgs) (key : Str) : Option Str :=
  (args.find? (fun kv => kv.1 == key)).map (fun kv => kv.2)

/-- The `prompt_args!` builder: start from the empty map and `insert` each
literal pair in order. -/
def prompt_args (pairs : List (Str × Str)) : PromptArgs :=
  pairs.foldl (fun args kv => mapInsert args kv.1 kv.2) []

/-- Specification-side definition, following the words of the spec for the
substitution pass: the non-overlapping, leftmost occurrences of the literal
token `pat` split the scanned string into the pieces between them (plain
substring matching, not regex). -/
def splitToken (pat : Str) : Str → List Str
  | [] => [[]]
  | c :: rest =>
    if h : pat ≠ [] ∧ pat.isPrefixOf (c :: rest)
    then [] :: splitToken pat ((c :: rest).drop pat.length)
    else
      match splitToken pat rest with
      | [] => [[c]]
      | piece :: pieces => (c :: piece) :: pieces
termination_by s => s.length
decreasing_by
  · simp only [List.length_drop, List.length_cons]
    have hp : 0 < pat.length := List.length_pos.mpr h.1
    omega
  · simp only [List.length_cons]
    omega

/-- Specification-side definition: glue the pieces back, inserting `sep`
("the value") at each token occurrence. -/
def joinWith (sep : Str) : List Str → Str
  | [] => []
  | [piece] => piece
  | piece :: pieces => piece ++ sep ++ joinWith sep pieces

/-! Helper lemmas about `replace`. -/

lemma isPrefixOf_eq_true {l₁ l₂ : Str} : l₁.isPrefixOf l₂ = true ↔ l₁ <+: l₂ :=
  List.isPrefixOf_iff_prefix

/-- Any fuel strictly above the length of the scanned string gives the same
result. -/
lemma replaceFuel_congr (pat rep : Str) (hpat : pat ≠ []) :
    ∀ (n m : Nat) (s : Str), s.length < n → s.length < m →
      replaceFuel n pat rep s = replaceFuel m pat rep s := by
  intro n
  induction n with
  | zero => intro m s hn _; exact absurd hn (Nat.not_lt_zero _)
  | succ n ih =>
    intro m s hn hm
    match m, s with
    | 0, s => exact absurd hm (Nat.not_lt_zero _)
    | m + 1, [] => rfl
    | m + 1, c :: rest =>
      have hlen : 0 < pat.length := List.length_pos.mpr hpat
      simp only [List.length_cons] at hn hm
      simp only [replaceFuel]
      by_cases hp : pat.isPrefixOf (c :: rest) = true
      · rw [if_pos hp, if_pos hp]
        have hd : ((c :: rest).drop pat.length).length = rest.length + 1 - pat.length := by
          simp [List.length_drop]
        congr 1
        exact ih m _ (by omega) (by omega)
      · rw [if_neg hp, if_neg hp]
        congr 1
        exact ih m rest (by omega) (by omega)

lemma replace_nil (pat rep : Str) (hpat : pat ≠ []) : replace pat rep [] = [] := by
  simp [replace, hpat, replaceFuel]

/-- Derived equation for `replace` on a cons cell, for non-empty patterns. -/
lemma replace_cons (pat rep : Str) (hpat : pat ≠ []) (c : Char) (rest : Str) :
    replace pat rep (c :: rest) =
      if pat.isPrefixOf (c :: rest)
      then rep ++ replace pat rep ((c :: rest).drop pat.length)
      else c :: replace pat rep rest := by
  have hlen : 0 < pat.length := List.length_pos.mpr hpat
  have e1 : replace pat rep (c :: rest) =
      replaceFuel (rest.length + 1 + 1) pat rep (c :: rest) := by
    simp only [replace, if_neg hpat, List.length_cons]
  rw [e1]
  simp only [replaceFuel]
  by_cases hp : pat.isPrefixOf (c :: rest) = true
  · rw [if_pos hp, if_pos hp]
    congr 1
    have hd : ((c :: rest).drop pat.length).length = rest.length + 1 - pat.length := by
      simp [List.length_drop]
    rw [show replace pat rep ((c :: rest).drop pat.length) =
        replaceFuel (((c :: rest).drop pat.length).length + 1) pat rep
          ((c :: rest).drop pat.length) by simp only [replace, if_neg hpat]]
    exact replaceFuel_congr pat rep hpat _ _ _ (by omega) (by omega)
  · rw [if_neg hp, if_neg hp]
    congr 1
    simp only [replace, if_neg hpat]

lemma infix_cons_extend {x l : Str} (c : Char) (h : x <:+: l) :
    x <:+: c :: l := by
  obtain ⟨s, t, rfl⟩ := h
  exact ⟨c :: s, t, rfl⟩

lemma infix_of_isPrefixOf {pat s : Str} (hp : pat.isPrefixOf s = true) :
    pat <:+: s := by
  obtain ⟨t, rfl⟩ := isPrefixOf_eq_true.mp hp
  exact ⟨[], t, rfl⟩

lemma infix_rest_of_not_isPrefixOf {pat : Str} {c : Char} {rest : Str}
    (h : pat <:+: c :: rest) (hp : ¬ pat.isPrefixOf (c :: rest) = true) :
    pat <:+: rest := by
  obtain ⟨s, t, hst⟩ := h
  match s, hst with
  | [], hst =>
    exact absurd (isPrefixOf_eq_true.mpr ⟨t, hst⟩) hp
  | a :: s, hst =>
    rw [List.cons_append] at hst
    injection hst with h1 h2
    exact ⟨s, t, h2⟩

/-- When the token does not occur, `str::replace` is the identity. -/
lemma replace_of_no_occurrence (pat rep : Str) (hpat : pat ≠ []) :
    ∀ s, ¬ pat <:+: s → replace pat rep s = s := by
  have aux : ∀ (n : Nat) (s : Str), s.length ≤ n → ¬ pat <:+: s →
      replace pat rep s = s := by
    intro n
    induction n with
    | zero =>
      intro s hlen _
      rw [List.length_eq_zero.mp (Nat.le_zero.mp hlen)]
      exact replace_nil pat rep hpat
    | succ n ih =>
      intro s hlen hocc
      match s with
      | [] => exact replace_nil pat rep hpat
      | c :: rest =>
        rw [replace_cons pat rep hpat]
        by_cases hp : pat.isPrefixOf (c :: rest) = true
        · exact absurd (infix_of_isPrefixOf hp) hocc
        · rw [if_neg hp]
          rw [ih rest (by simp only [List.length_cons] at hlen; omega)
            (fun hr => hocc (infix_cons_extend c hr))]
  exact fun s => aux s.length s (Nat.le_refl _)

/-- When the token does occur, the replacement text occurs in the result. -/
lemma rep_infix_replace (pat rep : Str) (hpat : pat ≠ []) :
    ∀ s, pat <:+: s → rep <:+: replace pat rep s := by
  have aux : ∀ (n : Nat) (s : Str), s.length ≤ n → pat <:+: s →
      rep <:+: replace pat rep s := by
    intro n
    induction n with
    | zero =>
      intro s hlen hocc
      rw [List.length_eq_zero.mp (Nat.le_zero.mp hlen)] at hocc
      obtain ⟨u, v, huv⟩ := hocc
      exact absurd (List.append_eq_nil.mp (List.append_eq_nil.mp huv).1).2 hpat
    | succ n ih =>
      intro s hlen hocc
      match s with
      | [] =>
        obtain ⟨u, v, huv⟩ := hocc
        exact absurd (List.append_eq_nil.mp (List.append_eq_nil.mp huv).1).2 hpat
      | c :: rest =>
        rw [replace_cons pat rep hpat]
        by_cases hp : pat.isPrefixOf (c :: rest) = true
        · rw [if_pos hp]
          exact ⟨[], replace pat rep ((c :: rest).drop pat.length), rfl⟩
        · rw [if_neg hp]
          exact infix_cons_extend c
            (ih rest (by simp only [List.length_cons] at hlen; omega)
              (infix_rest_of_not_isPrefixOf hocc hp))
  exact fun s => aux s.length s (Nat.le_refl _)

lemma splitToken_ne_nil (pat : Str) : ∀ s, splitToken pat s ≠ [] := by
  intro s
  match s with
  | [] => simp [splitToken]
  | c :: rest =>
    rw [splitToken]
    by_cases h : pat ≠ [] ∧ pat.isPrefixOf (c :: rest) = true
    · rw [dif_pos h]; simp
    · rw [dif_neg h]
      cases splitToken pat rest <;> simp

lemma joinWith_nil (sep : Str) : joinWith sep [] = [] := rfl

lemma joinWith_single (sep piece : Str) : joinWith sep [piece] = piece := rfl

lemma joinWith_cons₂ (sep piece piece2 : Str) (pieces : List Str) :
    joinWith sep (piece :: piece2 :: pieces) =
      piece ++ sep ++ joinWith sep (piece2 :: pieces) := rfl

/-- The substitution loop body agrees with the specification's description:
replacing every (leftmost, non-overlapping) occurrence of the literal token
is splitting at the token occurrences and joining with the value. -/
lemma replace_eq_joinWith (pat rep : Str) (hpat : pat ≠ []) :
    ∀ s, replace pat rep s = joinWith rep (splitToken pat s) := by
  have aux : ∀ (n : Nat) (s : Str), s.length ≤ n →
      replace pat rep s = joinWith rep (splitToken pat s) := by
    intro n
    induction n with
    | zero =>
      intro s hlen
      rw [List.length_eq_zero.mp (Nat.le_zero.mp hlen)]
      rw [replace_nil pat rep hpat]
      simp [splitToken, joinWith]
    | succ n ih =>
      intro s hlen
      match s with
      | [] =>
        rw [replace_nil pat rep hpat]
        simp [splitToken, joinWith]
      | c :: rest =>
        have hlen' : rest.length ≤ n := by
          simp only [List.length_cons] at hlen; omega
        rw [replace_cons pat rep hpat, splitToken]
        by_cases hp : pat.isPrefixOf (c :: rest) = true
        · rw [if_pos hp, dif_pos ⟨hpat, hp⟩]
          have hp1 : 0 < pat.length := List.length_pos.mpr hpat
          have hdlen : ((c :: rest).drop pat.length).length ≤ n := by
            rw [List.length_drop]
            simp only [List.length_cons]
            omega
          rw [ih _ hdlen]
          obtain ⟨piece, pieces, hsp⟩ :
              ∃ piece pieces,
                splitToken pat ((c :: rest).drop pat.length) = piece :: pieces := by
            cases hps : splitToken pat ((c :: rest).drop pat.length) with
            | nil => exact absurd hps (splitToken_ne_nil pat _)
            | cons piece pieces => exact ⟨piece, pieces, rfl⟩
          rw [hsp, joinWith_cons₂]
          simp
        · rw [if_neg hp, dif_neg (fun hc => hp hc.2)]
          rw [ih rest hlen']
          obtain ⟨piece, pieces, hsp⟩ :
              ∃ piece pieces, splitToken pat rest = piece :: pieces := by
            cases hps : splitToken pat rest with
            | nil => exact absurd hps (splitToken_ne_nil pat _)
            | cons piece pieces => exact ⟨piece, pieces, rfl⟩
          rw [hsp]
          cases pieces with
          | nil => rw [joinWith_single, joinWith_single]
          | cons piece2 pieces2 =>
            rw [joinWith_cons₂, joinWith_cons₂]
            simp
  exact fun s => aux s.length s (Nat.le_refl _)

/-! Helper lemmas about `find?` and the argument map. -/

/-- `find?` returns the first element satisfying the predicate, in list
order: everything before it fails the predicate. -/
lemma find?_first_true {α : Type} (p : α → Bool) :
    ∀ (l : List α), (∃ u ∈ l, p u = true) →
      ∃ key l₁ l₂, l = l₁ ++ key :: l₂ ∧ (∀ u ∈ l₁, p u = false) ∧
        p key = true ∧ l.find? p = some key := by
  intro l
  induction l with
  | nil => intro h; simp at h
  | cons a l ih =>
    intro h
    by_cases ha : p a = true
    · exact ⟨a, [], l, rfl, by simp, ha, by simp [List.find?, ha]⟩
    · have ha' : p a = false := by
        cases hpa : p a with
        | true => exact absurd hpa ha
        | false => rfl
      obtain ⟨u, hu, hpu⟩ := h
      have hu' : u ∈ l := by
        cases List.mem_cons.mp hu with
        | inl he => exact absurd (he ▸ hpu) ha
        | inr hm => exact hm
      obtain ⟨key, l₁, l₂, hsplit, hall, hkey, hfind⟩ := ih ⟨u, hu', hpu⟩
      refine ⟨key, a :: l₁, l₂, by rw [hsplit, List.cons_append], ?_, hkey, ?_⟩
      · intro v hv
        cases List.mem_cons.mp hv with
        | inl he => exact he ▸ ha'
        | inr hm => exact hall v hm
      · rw [List.find?_cons_of_neg _ (by simp [ha']), hfind]

/-- Validation succeeds when every declared variable has an entry. -/
lemma find?_missing_none (V : List Str) (args : PromptArgs)
    (h : ∀ u ∈ V, containsKey args u = true) :
    V.find? (fun key => ! containsKey args key) = none := by
  rw [List.find?_eq_none]
  intro u hu
  simp [h u hu]

/-- `find?` only looks at predicate values on the list's elements. -/
lemma find?_congr_on {α : Type} (p q : α → Bool) :
    ∀ (l : List α), (∀ u ∈ l, p u = q u) → l.find? p = l.find? q := by
  intro l
  induction l with
  | nil => intro _; rfl
  | cons a l ih =>
    intro h
    have ha := h a (List.mem_cons_self a l)
    cases hq : q a with
    | true =>
      rw [List.find?_cons_of_pos _ (ha ▸ hq), List.find?_cons_of_pos _ hq]
    | false =>
      rw [List.find?_cons_of_neg _ (by simp [ha ▸ hq]),
        List.find?_cons_of_neg _ (by simp [hq])]
      exact ih (fun u hu => h u (List.mem_cons_of_mem a hu))

lemma find?_entry_of_update (k v : Str) :
    ∀ (m : PromptArgs), containsKey m k = true →
      (m.map (fun kv => if kv.1 == k then (k, v) else kv)).find?
        (fun kv => kv.1 == k) = some (k, v) := by
  intro m
  induction m with
  | nil => intro h; simp [containsKey] at h
  | cons a m ih =>
    intro h
    cases ha : (a.1 == k) with
    | true =>
      simp only [List.map_cons]
      rw [if_pos ha, List.find?_cons_of_pos _ (by simp)]
    | false =>
      simp only [List.map_cons]
      rw [if_neg (by simp [ha]), List.find?_cons_of_neg _ (by simp [ha])]
      apply ih
      simp only [containsKey, List.any_cons, ha, Bool.false_or] at h
      exact h

lemma find?_entry_of_append (k v : Str) :
    ∀ (m : PromptArgs), containsKey m k = false →
      (m ++ [(k, v)]).find? (fun kv => kv.1 == k) = some (k, v) := by
  intro m
  induction m with
  | nil => intro _; simp [List.find?]
  | cons a m ih =>
    intro h
    simp only [containsKey, List.any_cons, Bool.or_eq_false_iff] at h
    rw [List.cons_append, List.find?_cons_of_neg _ (by simp [h.1])]
    exact ih h.2

/-- After an insert, looking the key up returns the new value. -/
lemma mapGet_mapInsert (m : PromptArgs) (k v : Str) :
    mapGet (mapInsert m k v) k = some v := by
  unfold mapInsert
  by_cases h : containsKey m k = true
  · rw [if_pos h]
    unfold mapGet
    rw [find?_entry_of_update k v m h]
    rfl
  · rw [if_neg h]
    unfold mapGet
    rw [find?_entry_of_append k v m (by cases hc : containsKey m k with
      | true => exact absurd hc h
      | false => rfl)]
    rfl

lemma placeholder_ne_nil (fk : TemplateFormat) (key : Str) :
    placeholder fk key ≠ [] := by
  cases fk <;> simp [placeholder]

lemma format_eq_of_find_none (T : PromptTemplate) (args : PromptArgs)
    (h : T.«variables».find? (fun key => ! containsKey args key) = none) :
    T.format args = Except.ok (args.foldl
      (fun prompt kv => replace (placeholder T.formatKind kv.1) kv.2 prompt)
      T.template) := by
  unfold PromptTemplate.format
  rw [h]

lemma format_eq_of_find_some (T : PromptTemplate) (args : PromptArgs) (key : Str)
    (h : T.«variables».find? (fun key => ! containsKey args key) = some key) :
    T.format args = Except.error (missingVarError key) := by
  unfold PromptTemplate.format
  rw [h]

/-! Claim theorems. -/

/-- C9: `new(t, v, f)` performs no validation and always succeeds, and the
accessors `template()` and `variables()` of the result return exactly the
strings given, in the order given (the trait methods return clones, which a
pure embedding renders as the projections themselves). -/
theorem new_accessor_round_trip (t : Str) (v : List Str) (fk : TemplateFormat) :
    (PromptTemplate.new t v fk).template = t
  ∧ (PromptTemplate.new t v fk).«variables» = v
  ∧ (PromptTemplate.new t v fk).formatKind = fk :=
  ⟨rfl, rfl, rfl⟩

/-- C8: `format` takes `&self` and has no side effect beyond its return
value: embedded as explicit state passing (`formatCall`), the receiver
coming out of a call — succeeding or failing — is the receiver that went
in, so the template string, the declared variable list and the format kind
are unchanged and the accessors agree before and after the call. -/
theorem format_leaves_template_unchanged (T : PromptTemplate) (args : PromptArgs) :
    (formatCall T args).2.template = T.template
  ∧ (formatCall T args).2.«variables» = T.«variables»
  ∧ (formatCall T args).2.formatKind = T.formatKind
  ∧ (formatCall T args).1 = T.format args :=
  ⟨rfl, rfl, rfl, rfl⟩

/-- C6: concrete round trips.  `format` on template `Hello {name}!` with
declared variables `["name"]` and brace style errors (naming `name`) on the
empty map and yields `Hello world!` on `name ↦ world`; the double-brace
template `Hello {{name}}!` behaves identically. -/
theorem format_concrete_round_trips :
    (PromptTemplate.new "Hello \x7bname\x7d!".data ["name".data]
        TemplateFormat.FString).format []
      = Except.error (missingVarError "name".data)
  ∧ (PromptTemplate.new "Hello \x7bname\x7d!".data ["name".data]
        TemplateFormat.FString).format [("name".data, "world".data)]
      = Except.ok "Hello world!".data
  ∧ (PromptTemplate.new "Hello \x7b\x7bname\x7d\x7d!".data ["name".data]
        TemplateFormat.Jinja2).format []
      = Except.error (missingVarError "name".data)
  ∧ (PromptTemplate.new "Hello \x7b\x7bname\x7d\x7d!".data ["name".data]
        TemplateFormat.Jinja2).format [("name".data, "world".data)]
      = Except.ok "Hello world!".data :=
  ⟨rfl, rfl, rfl, rfl⟩

/-- C4: whenever the input map contains every declared variable, `format`
succeeds with a string; in particular empty templates, unused declared
variables, extra input keys and the empty map with no declared variables
are never errors. -/
theorem format_ok_of_all_declared_present (T : PromptTemplate) (args : PromptArgs)
    (h : ∀ u ∈ T.«variables», containsKey args u = true) :
    ∃ s, T.format args = Except.ok s :=
  ⟨_, format_eq_of_find_none T args (find?_missing_none T.«variables» args h)⟩

theorem format_ok_of_all_declared_present_witness :
    ∃ s, (PromptTemplate.new [] [] TemplateFormat.FString).format []
      = Except.ok s :=
  format_ok_of_all_declared_present _ _ (by decide)

/-- C1: if some declared variable is absent from the input map, `format`
returns `Except.error` naming the first missing declared variable in
declaration order, and returns no string at all (the `Except.error`
constructor carries only the error, so neither the original template nor a
partially substituted string is produced and no substitution runs). -/
theorem format_missing_first_declared (T : PromptTemplate) (args : PromptArgs)
    (h : ∃ u ∈ T.«variables», containsKey args u = false) :
    ∃ key l₁ l₂, T.«variables» = l₁ ++ key :: l₂
      ∧ (∀ u ∈ l₁, containsKey args u = true)
      ∧ containsKey args key = false
      ∧ T.format args = Except.error (missingVarError key) := by
  obtain ⟨u, hu, hcu⟩ := h
  obtain ⟨key, l₁, l₂, hsplit, hall, hkey, hfind⟩ :=
    find?_first_true (fun key => ! containsKey args key) T.«variables»
      ⟨u, hu, by simp [hcu]⟩
  refine ⟨key, l₁, l₂, hsplit, ?_, ?_, format_eq_of_find_some T args key hfind⟩
  · intro w hw
    have hw' := hall w hw
    simp only [Bool.not_eq_false'] at hw'
    exact hw'
  · simp only [Bool.not_eq_true'] at hkey
    exact hkey

theorem format_missing_first_declared_witness :
    ∃ key l₁ l₂,
      (PromptTemplate.new "Hello \x7bname\x7d!".data ["name".data]
        TemplateFormat.FString).«variables» = l₁ ++ key :: l₂
      ∧ (∀ u ∈ l₁, containsKey ([] : PromptArgs) u = true)
      ∧ containsKey ([] : PromptArgs) key = false
      ∧ (PromptTemplate.new "Hello \x7bname\x7d!".data ["name".data]
          TemplateFormat.FString).format []
        = Except.error (missingVarError key) :=
  format_missing_first_declared _ _ (by decide)

/-- C3: when validation passes, the substitution pass processes each input
pair by replacing every (leftmost, non-overlapping) occurrence of the
literal placeholder token — `{key}` under the brace style, `{{key}}` under
the double-brace style — with the pair's value, by plain substring
matching: the result is the fold over the input pairs of splitting the
current string at the token occurrences and joining with the value. -/
theorem format_substitutes_every_token_occurrence
    (fk : TemplateFormat) (t : Str) (V : List Str) (args : PromptArgs)
    (h : ∀ u ∈ V, containsKey args u = true) :
    (PromptTemplate.new t V fk).format args =
      Except.ok (args.foldl
        (fun prompt kv => joinWith kv.2 (splitToken (placeholder fk kv.1) prompt))
        t) := by
  have h1 : (PromptTemplate.new t V fk).format args =
      Except.ok (args.foldl
        (fun prompt kv => replace (placeholder fk kv.1) kv.2 prompt) t) :=
    format_eq_of_find_none _ _ (find?_missing_none V args h)
  have hstep : (fun (prompt : Str) (kv : Str × Str) =>
        replace (placeholder fk kv.1) kv.2 prompt)
      = (fun (prompt : Str) (kv : Str × Str) =>
        joinWith kv.2 (splitToken (placeholder fk kv.1) prompt)) := by
    funext prompt kv
    exact replace_eq_joinWith _ _ (placeholder_ne_nil fk kv.1) prompt
  rw [h1, hstep]

theorem format_substitutes_every_token_occurrence_witness :
    (PromptTemplate.new "Hello \x7bname\x7d!".data ["name".data]
        TemplateFormat.FString).format [("name".data, "world".data)] =
      Except.ok ([("name".data, "world".data)].foldl
        (fun prompt kv =>
          joinWith kv.2 (splitToken (placeholder TemplateFormat.FString kv.1) prompt))
        "Hello \x7bname\x7d!".data) :=
  format_substitutes_every_token_occurrence TemplateFormat.FString
    "Hello \x7bname\x7d!".data ["name".data] [("name".data, "world".data)]
    (by decide)

/-- C10: a value containing its own key's placeholder token is not
re-substituted.  For the single-entry map `key ↦ v` where `v` contains the
token of `key` itself and the template mentions the token, `format`
succeeds with a single `str::replace` of the token by `v`; the whole value
`v` — its inner token unexpanded — occurs verbatim in the output, so the
token inside the inserted value is left intact. -/
theorem own_token_value_inserted_verbatim
    (fk : TemplateFormat) (t : Str) (k v : Str)
    (hv : placeholder fk k <:+: v)
    (ht : placeholder fk k <:+: t) :
    (PromptTemplate.new t [k] fk).format [(k, v)]
      = Except.ok (replace (placeholder fk k) v t)
  ∧ v <:+: replace (placeholder fk k) v t
  ∧ placeholder fk k <:+: replace (placeholder fk k) v t := by
  have hvout : v <:+: replace (placeholder fk k) v t :=
    rep_infix_replace (placeholder fk k) v (placeholder_ne_nil fk k) t ht
  refine ⟨?_, hvout, hv.trans hvout⟩
  exact format_eq_of_find_none _ _
    (find?_missing_none [k] [(k, v)]
      (by intro u hu
          rw [List.mem_singleton.mp hu]
          simp [containsKey]))

theorem own_token_value_inserted_verbatim_witness :
    (PromptTemplate.new "\x7bname\x7d".data ["name".data]
        TemplateFormat.FString).format [("name".data, "\x7bname\x7d".data)]
      = Except.ok (replace (placeholder TemplateFormat.FString "name".data)
          "\x7bname\x7d".data "\x7bname\x7d".data)
  ∧ "\x7bname\x7d".data <:+:
      replace (placeholder TemplateFormat.FString "name".data)
        "\x7bname\x7d".data "\x7bname\x7d".data
  ∧ placeholder TemplateFormat.FString "name".data <:+:
      replace (placeholder TemplateFormat.FString "name".data)
        "\x7bname\x7d".data "\x7bname\x7d".data :=
  own_token_value_inserted_verbatim TemplateFormat.FString
    "\x7bname\x7d".data "name".data "\x7bname\x7d".data
    (by decide) (by decide)

/-- C2 counterexample: the claim fails for some iteration orders.  Template
`Hello {a}!`, declared variables `a` and `b`, value of `a` textually equal
to the placeholder token `{b}` of the other key `b`.  For the iteration
order in which `b`'s pair comes after `a`'s, the inner `{b}` token inserted
as `a`'s value IS substituted in the same call: the call returns
`Hello world!`, not the verbatim `Hello {b}!`. -/
theorem inner_token_substituted_for_some_order :
    (PromptTemplate.new "Hello \x7ba\x7d!".data ["a".data, "b".data]
        TemplateFormat.FString).format
      [("a".data, "\x7bb\x7d".data), ("b".data, "world".data)]
      = Except.ok "Hello world!".data
  ∧ "Hello world!".data ≠ "Hello \x7bb\x7d!".data :=
  ⟨rfl, by decide⟩

/-- C2 (amended): a supplied value textually equal to the placeholder token
of a different input key is inserted verbatim and its inner token is not
substituted in the same call when the pair carrying the value is the last
one processed in the iteration order (the different key’s pair, like all
others, then being processed earlier): for any template, declared variables
and preceding pairs, the call returns the single `str::replace` of the
value into the string built so far, and whenever that string mentions the
token of `k`, the unexpanded token of `k2` occurs verbatim in the output.
For other iteration orders the inner token can be substituted: by the
different key’s own later pair (the counterexample), or by a later pair
whose token overlaps the inserted text. -/
theorem inner_token_survives_when_other_key_first
    (fk : TemplateFormat) (t : Str) (V : List Str) (k k2 : Str)
    (front : PromptArgs)
    (hne : k ≠ k2)
    (hk2 : containsKey front k2 = true)
    (hv : ∀ u ∈ V, containsKey (front ++ [(k, placeholder fk k2)]) u = true)
    (hocc : placeholder fk k <:+: front.foldl
      (fun prompt kv => replace (placeholder fk kv.1) kv.2 prompt) t) :
    (PromptTemplate.new t V fk).format (front ++ [(k, placeholder fk k2)])
      = Except.ok (replace (placeholder fk k) (placeholder fk k2)
          (front.foldl
            (fun prompt kv => replace (placeholder fk kv.1) kv.2 prompt) t))
  ∧ placeholder fk k2 <:+:
      replace (placeholder fk k) (placeholder fk k2)
        (front.foldl
          (fun prompt kv => replace (placeholder fk kv.1) kv.2 prompt) t) := by
  constructor
  · have e1 : (PromptTemplate.new t V fk).format
        (front ++ [(k, placeholder fk k2)])
        = Except.ok ((front ++ [(k, placeholder fk k2)]).foldl
          (fun prompt kv => replace (placeholder fk kv.1) kv.2 prompt) t) :=
      format_eq_of_find_none _ _ (find?_missing_none V _ hv)
    rw [e1, List.foldl_append]
    simp only [List.foldl_cons, List.foldl_nil]
  · exact rep_infix_replace (placeholder fk k) (placeholder fk k2)
      (placeholder_ne_nil fk k) _ hocc

theorem inner_token_survives_when_other_key_first_witness :
    (PromptTemplate.new "Hello \x7ba\x7d!".data ["b".data, "a".data]
        TemplateFormat.FString).format
      ([("b".data, "world".data)]
        ++ [("a".data, placeholder TemplateFormat.FString "b".data)])
      = Except.ok (replace (placeholder TemplateFormat.FString "a".data)
          (placeholder TemplateFormat.FString "b".data)
          ([("b".data, "world".data)].foldl
            (fun prompt kv =>
              replace (placeholder TemplateFormat.FString kv.1) kv.2 prompt)
            "Hello \x7ba\x7d!".data))
  ∧ placeholder TemplateFormat.FString "b".data <:+:
      replace (placeholder TemplateFormat.FString "a".data)
        (placeholder TemplateFormat.FString "b".data)
        ([("b".data, "world".data)].foldl
          (fun prompt kv =>
            replace (placeholder TemplateFormat.FString kv.1) kv.2 prompt)
          "Hello \x7ba\x7d!".data) :=
  inner_token_survives_when_other_key_first TemplateFormat.FString
    "Hello \x7ba\x7d!".data ["b".data, "a".data] "a".data "b".data
    [("b".data, "world".data)]
    (by decide) (by decide) (by decide) (by decide)

/-- C5 counterexample: an extra input key whose token does not occur in the
template can still affect the result.  Template `{a}`, declared `["a"]`,
value of `a` equal to `{x}`: the token `{x}` of the undeclared extra key
`x` occurs nowhere in the template, yet adding `x ↦ boom` changes the
output from `{x}` to `boom` (the earlier substitution of `a` introduced
the extra key's token). -/
theorem extra_key_changes_result :
    (PromptTemplate.new "\x7ba\x7d".data ["a".data]
        TemplateFormat.FString).format
      [("a".data, "\x7bx\x7d".data), ("x".data, "boom".data)]
      = Except.ok "boom".data
  ∧ (PromptTemplate.new "\x7ba\x7d".data ["a".data]
        TemplateFormat.FString).format
      [("a".data, "\x7bx\x7d".data)]
      = Except.ok "\x7bx\x7d".data
  ∧ ¬ (placeholder TemplateFormat.FString "x".data <:+: "\x7ba\x7d".data)
  ∧ "boom".data ≠ "\x7bx\x7d".data :=
  ⟨rfl, rfl, by decide, by decide⟩

/-- C5 (amended): input keys absent from the declared list never cause
`format` to fail: wherever the extra pair sits in the iteration order, the
call with it fails exactly when the call without it fails (validation
ignores undeclared keys).  When validation passes, the extra pair is
substituted like any other pair: the result is the fold in which the extra
pair contributes exactly one `str::replace` of its token by its value, in
its position.  And the extra key has no effect on the result whenever its
token does not occur in the intermediate string at the moment its pair is
processed — in particular, when the extra pair is processed first and its
token does not occur in the template; an earlier substitution can
introduce the token, in which case the extra key changes the result, as
the counterexample shows. -/
theorem extra_key_harmless
    (fk : TemplateFormat) (t : Str) (V : List Str) (k v : Str)
    (front back : PromptArgs)
    (hk : k ∉ V) :
    ((PromptTemplate.new t V fk).format (front ++ (k, v) :: back)).isOk
        = ((PromptTemplate.new t V fk).format (front ++ back)).isOk
  ∧ ((∀ u ∈ V, containsKey (front ++ (k, v) :: back) u = true) →
      (PromptTemplate.new t V fk).format (front ++ (k, v) :: back)
        = Except.ok (back.foldl
            (fun prompt kv => replace (placeholder fk kv.1) kv.2 prompt)
            (replace (placeholder fk k) v
              (front.foldl
                (fun prompt kv => replace (placeholder fk kv.1) kv.2 prompt)
                t))))
  ∧ (¬ placeholder fk k <:+: front.foldl
        (fun prompt kv => replace (placeholder fk kv.1) kv.2 prompt) t →
      (PromptTemplate.new t V fk).format (front ++ (k, v) :: back)
        = (PromptTemplate.new t V fk).format (front ++ back)) := by
  have hcong : V.find? (fun u => ! containsKey (front ++ (k, v) :: back) u)
      = V.find? (fun u => ! containsKey (front ++ back) u) := by
    apply find?_congr_on
    intro u hu
    have hne : (k == u) = false :=
      beq_eq_false_iff_ne.mpr (fun he => hk (he ▸ hu))
    simp [containsKey, List.any_append, hne]
  refine ⟨?_, ?_, ?_⟩
  · cases hfind : V.find? (fun u => ! containsKey (front ++ back) u) with
    | some key =>
      rw [format_eq_of_find_some _ _ key (hcong.trans hfind),
        format_eq_of_find_some _ _ key hfind]
    | none =>
      rw [format_eq_of_find_none _ _ (hcong.trans hfind),
        format_eq_of_find_none _ _ hfind]
      rfl
  · intro hv
    have e1 : (PromptTemplate.new t V fk).format (front ++ (k, v) :: back)
        = Except.ok ((front ++ (k, v) :: back).foldl
          (fun prompt kv => replace (placeholder fk kv.1) kv.2 prompt) t) :=
      format_eq_of_find_none _ _ (find?_missing_none V _ hv)
    rw [e1, List.foldl_append]
    simp only [List.foldl_cons]
  · intro hocc
    cases hfind : V.find? (fun u => ! containsKey (front ++ back) u) with
    | some key =>
      rw [format_eq_of_find_some _ _ key (hcong.trans hfind),
        format_eq_of_find_some _ _ key hfind]
    | none =>
      have e1 : (PromptTemplate.new t V fk).format (front ++ (k, v) :: back)
          = Except.ok ((front ++ (k, v) :: back).foldl
            (fun prompt kv => replace (placeholder fk kv.1) kv.2 prompt) t) :=
        format_eq_of_find_none _ _ (hcong.trans hfind)
      have e2 : (PromptTemplate.new t V fk).format (front ++ back)
          = Except.ok ((front ++ back).foldl
            (fun prompt kv => replace (placeholder fk kv.1) kv.2 prompt) t) :=
        format_eq_of_find_none _ _ hfind
      rw [e1, e2, List.foldl_append, List.foldl_append]
      simp only [List.foldl_cons]
      rw [replace_of_no_occurrence (placeholder fk k) v
        (placeholder_ne_nil fk k) _ hocc]

theorem extra_key_harmless_witness :
    ((PromptTemplate.new "Hello \x7ba\x7d!".data ["a".data]
        TemplateFormat.FString).format
      ([("a".data, "world".data)] ++ ("x".data, "boom".data) :: [])).isOk
        = ((PromptTemplate.new "Hello \x7ba\x7d!".data ["a".data]
            TemplateFormat.FString).format
          ([("a".data, "world".data)] ++ [])).isOk
  ∧ (PromptTemplate.new "Hello \x7ba\x7d!".data ["a".data]
        TemplateFormat.FString).format
      ([("a".data, "world".data)] ++ ("x".data, "boom".data) :: [])
        = Except.ok (([] : PromptArgs).foldl
            (fun prompt kv =>
              replace (placeholder TemplateFormat.FString kv.1) kv.2 prompt)
            (replace (placeholder TemplateFormat.FString "x".data) "boom".data
              ([("a".data, "world".data)].foldl
                (fun prompt kv =>
                  replace (placeholder TemplateFormat.FString kv.1) kv.2 prompt)
                "Hello \x7ba\x7d!".data)))
  ∧ (PromptTemplate.new "Hello \x7ba\x7d!".data ["a".data]
        TemplateFormat.FString).format
      ([("a".data, "world".data)] ++ ("x".data, "boom".data) :: [])
        = (PromptTemplate.new "Hello \x7ba\x7d!".data ["a".data]
            TemplateFormat.FString).format
          ([("a".data, "world".data)] ++ []) :=
  ⟨(extra_key_harmless TemplateFormat.FString "Hello \x7ba\x7d!".data
      ["a".data] "x".data "boom".data [("a".data, "world".data)] []
      (by decide)).1,
    (extra_key_harmless TemplateFormat.FString "Hello \x7ba\x7d!".data
      ["a".data] "x".data "boom".data [("a".data, "world".data)] []
      (by decide)).2.1 (by decide),
    (extra_key_harmless TemplateFormat.FString "Hello \x7ba\x7d!".data
      ["a".data] "x".data "boom".data [("a".data, "world".data)] []
      (by decide)).2.2 (by decide)⟩

/-- C7: the `prompt_args!` builder cannot fail: no pairs give the empty
map; `("name","world")` gives a one-entry map with `get "name" = world`;
two distinct pairs give a two-entry map with both values retrievable; a
repeated key keeps one entry holding the last value written, and in
general the last value written for a key is the one `get` returns. -/
theorem prompt_args_builder :
    prompt_args [] = []
  ∧ (prompt_args [("name".data, "world".data)]).length = 1
  ∧ mapGet (prompt_args [("name".data, "world".data)]) "name".data
      = some "world".data
  ∧ (prompt_args [("name".data, "world".data), ("age".data, "18".data)]).length = 2
  ∧ mapGet (prompt_args [("name".data, "world".data), ("age".data, "18".data)])
      "name".data = some "world".data
  ∧ mapGet (prompt_args [("name".data, "world".data), ("age".data, "18".data)])
      "age".data = some "18".data
  ∧ (prompt_args [("k".data, "v1".data), ("k".data, "v2".data)]).length = 1
  ∧ mapGet (prompt_args [("k".data, "v1".data), ("k".data, "v2".data)]) "k".data
      = some "v2".data
  ∧ ∀ (pairs : List (Str × Str)) (k v : Str),
      mapGet (prompt_args (pairs ++ [(k, v)])) k = some v := by
  refine ⟨rfl, rfl, rfl, rfl, rfl, rfl, rfl, rfl, ?_⟩
  intro pairs k v
  unfold prompt_args
  rw [List.foldl_append]
  simp only [List.foldl_cons, List.foldl_nil]
  exact mapGet_mapInsert _ k v
